/-
  Verification of the ValidDog OpenAPI request/response validator.

  This file shallowly embeds the validation core of the repository
  (src/pathMatcher.ts and src/validator.ts) into Lean 4 and proves, or
  refutes, a list of behavioural claims about it.

  Modelling conventions:
  * JSON values are modelled by the inductive `Json`; numerics are carried at
    integer precision (no claim under verification depends on non-integral or
    IEEE-754 behaviour).
  * JavaScript records (objects) are association lists with unique keys; a
    property access is `recLookup`, which returns the first binding.
  * The external `jsonschema` npm library call `jsonValidator.validate` is not
    code of this repository; it is modelled as an explicit functional
    parameter `lib : Json → Json → Except String LibResult` (an `Except.error`
    models a thrown exception).  Everything the repository's own code does
    with the library's result is embedded faithfully.
  * The regex fragment generated by the two path matchers (literal characters
    plus `([^/]+)` capture groups) is embedded as a list of `Atom`s together
    with a greedy backtracking matcher, which coincides with JavaScript
    regex semantics on this fragment.
-/
import Mathlib

namespace ValidDog

/-- JSON values, at integer numeric precision. -/
inductive Json where
  | null
  | bool (b : Bool)
  | num (n : Int)
  | str (s : String)
  | arr (items : List Json)
  | obj (fields : List (String × Json))

/-- JavaScript object property access: the first binding of `key` in an
association list (objects have unique keys, so first = only). -/
def recLookup {α : Type} (fields : List (String × α)) (key : String) : Option α :=
  match fields with
  | [] => none
  | (k, v) :: rest => if k = key then some v else recLookup rest key

/-- `s.split(sep)[0]` in JavaScript: the text before the first occurrence of
the separator character (the whole string when absent). -/
def stripAfter (sep : Char) (s : String) : String :=
  String.mk (s.toList.takeWhile (fun c => c ≠ sep))

/-- String prefix test (`startsWith`), spelled over character lists so that it
computes by kernel reduction. -/
def strStartsWith (s pre : String) : Bool :=
  pre.toList.isPrefixOf s.toList

/-- Drops the first `n` characters of a string. -/
def strDrop (s : String) (n : Nat) : String :=
  String.mk (s.toList.drop n)

/-- JavaScript `toLowerCase`, at per-character granularity. -/
def strToLower (s : String) : String :=
  String.mk (s.toList.map Char.toLower)

-- =========================================================================
-- Path-template scanning (shared by pathMatcher.ts and validator.ts)
--
-- Both sources turn an OpenAPI path template into a regular expression with
-- `pattern.replace(/\{([^}]+)\}/g, '([^/]+)')`: each `{name}` placeholder
-- (nonempty name, no closing brace inside) becomes a one-segment capture
-- group and every other character stays literal.
-- =========================================================================

/-- One atom of the generated regular expression: a literal character or the
capture group `([^/]+)`. -/
inductive Atom where
  | lit (c : Char)
  | group
deriving DecidableEq

/-- Reads a placeholder name after an opening brace: the run of characters up
to the first closing brace.  Returns the name and the remaining input, or
`none` when the name would be empty or no closing brace exists (the regex
`\{[^}]+\}` does not match there and the brace stays literal). -/
def takeName (cs : List Char) : Option (List Char × List Char) :=
  match cs.dropWhile (fun c => c ≠ '}') with
  | '}' :: after =>
    if (cs.takeWhile (fun c => c ≠ '}')).isEmpty then none
    else some (cs.takeWhile (fun c => c ≠ '}'), after)
  | _ => none

theorem takeName_length_lt (cs : List Char) (name after : List Char)
    (h : takeName cs = some (name, after)) : after.length < cs.length := by
  unfold takeName at h
  split at h
  next after' heq =>
    split at h
    · exact absurd h (by simp)
    · have hcs := List.takeWhile_append_dropWhile
        (fun c : Char => decide (c ≠ '}')) cs
      rw [heq] at hcs
      have hlen : cs.length =
          (cs.takeWhile (fun c => c ≠ '}')).length + (after'.length + 1) := by
        conv_lhs => rw [← hcs]
        simp
      have h2 : after' = after := by
        simp only [Option.some.injEq, Prod.mk.injEq] at h
        exact h.2
      subst h2
      omega
  next => exact absurd h (by simp)

/-- Worker for `scanTemplate`, structurally recursive on a fuel counter so
that concrete templates evaluate by kernel reduction; `scanTemplate` always
supplies enough fuel (each step consumes at least one character), so the
fuel-exhausted branch is unreachable. -/
def scanTemplateGo : Nat → List Char → List Atom × List String
  | _, [] => ([], [])
  | 0, _ :: _ => ([], [])
  | fuel + 1, c :: rest =>
    if c = '{' then
      match takeName rest with
      | some (name, after) =>
        let p := scanTemplateGo fuel after
        (Atom.group :: p.1, String.mk name :: p.2)
      | none =>
        let p := scanTemplateGo fuel rest
        (Atom.lit '{' :: p.1, p.2)
    else
      let p := scanTemplateGo fuel rest
      (Atom.lit c :: p.1, p.2)

/-- Scans a path template into the atoms of its generated regex together with
the placeholder names, in order of occurrence (the global-replace semantics of
`pattern.replace(/\{([^}]+)\}/g, '([^/]+)')`). -/
def scanTemplate (cs : List Char) : List Atom × List String :=
  scanTemplateGo cs.length cs

/-- The fuel argument of `scanTemplateGo` is irrelevant as long as it covers
the input length. -/
theorem scanTemplateGo_fuel (fuel₁ fuel₂ : Nat) (cs : List Char)
    (h₁ : cs.length ≤ fuel₁) (h₂ : cs.length ≤ fuel₂) :
    scanTemplateGo fuel₁ cs = scanTemplateGo fuel₂ cs := by
  induction fuel₁ using Nat.strong_induction_on generalizing fuel₂ cs with
  | _ fuel₁ ih =>
    match fuel₁, fuel₂, cs with
    | f₁, f₂, [] => cases f₁ <;> cases f₂ <;> rfl
    | 0, _, c :: rest => simp at h₁
    | _ + 1, 0, c :: rest => simp at h₂
    | f₁ + 1, f₂ + 1, c :: rest =>
      simp only [scanTemplateGo]
      by_cases hc : c = '{'
      · simp only [hc, if_true]
        match hname : takeName rest with
        | some (name, after) =>
          have hlt := takeName_length_lt rest name after hname
          simp only []
          rw [ih f₁ (Nat.lt_succ_self f₁) f₂ after (by simp at h₁; omega)
            (by simp at h₂; omega)]
        | none =>
          simp only []
          rw [ih f₁ (Nat.lt_succ_self f₁) f₂ rest (by simp at h₁; omega)
            (by simp at h₂; omega)]
      · simp only [hc, if_false]
        rw [ih f₁ (Nat.lt_succ_self f₁) f₂ rest (by simp at h₁; omega)
          (by simp at h₂; omega)]

/-- Step equation of `scanTemplate` on a placeholder opening. -/
theorem scanTemplate_cons_brace (rest name after : List Char)
    (hname : takeName rest = some (name, after)) :
    scanTemplate ('{' :: rest) =
      (Atom.group :: (scanTemplate after).1,
        String.mk name :: (scanTemplate after).2) := by
  have hlt := takeName_length_lt rest name after hname
  show scanTemplateGo ('{' :: rest).length ('{' :: rest) = _
  simp only [List.length_cons, scanTemplateGo, if_true, hname]
  rw [scanTemplateGo_fuel rest.length after.length after (by omega) (by omega)]
  rfl

/-- Step equation of `scanTemplate` on a literal character (one that does not
open a well-formed placeholder). -/
theorem scanTemplate_cons_lit (c : Char) (rest : List Char)
    (h : c ≠ '{' ∨ takeName rest = none) :
    scanTemplate (c :: rest) =
      (Atom.lit c :: (scanTemplate rest).1, (scanTemplate rest).2) := by
  show scanTemplateGo (c :: rest).length (c :: rest) = _
  simp only [List.length_cons, scanTemplateGo]
  by_cases hc : c = '{'
  · subst hc
    rcases h with h | h
    · exact absurd rfl h
    · simp only [if_true, h]
      rfl
  · simp only [hc, if_false]
    rfl

/-- The candidate (captured text, remaining input) splits the group `([^/]+)`
can take at the head of `s`: every nonempty prefix of the maximal slash-free
run, longest first (the greedy preference order of the regex engine). -/
def groupSplits (s : List Char) : List (List Char × List Char) :=
  let run := s.takeWhile (fun c => c ≠ '/')
  let rest := s.dropWhile (fun c => c ≠ '/')
  (List.range run.length).map
    (fun i => (run.take (run.length - i), run.drop (run.length - i) ++ rest))

/-- Greedy backtracking matcher for the generated regex fragment, anchored at
both ends of the input; returns the list of captured group texts on success.
This is exactly how a JavaScript regex of the shape produced by the sources
(literals interleaved with `([^/]+)` groups, `^ ... $`) matches a string. -/
def matchAtoms : List Atom → List Char → Option (List (List Char))
  | [], s => if s.isEmpty then some [] else none
  | Atom.lit _ :: _, [] => none
  | Atom.lit c :: as, x :: xs => if x = c then matchAtoms as xs else none
  | Atom.group :: as, s =>
    (groupSplits s).findSome?
      (fun ps => (matchAtoms as ps.2).map (fun caps => ps.1 :: caps))

/-- Reassembles the subject string a successful match consumed: literals stay,
each group is replaced by its captured text. -/
def expandAtoms : List Atom → List (List Char) → List Char
  | [], _ => []
  | Atom.lit c :: as, caps => c :: expandAtoms as caps
  | Atom.group :: as, cap :: caps => cap ++ expandAtoms as caps
  | Atom.group :: as, [] => expandAtoms as []

-- =========================================================================
-- Segment-structured path templates
--
-- The round-trip property of path-parameter extraction only holds for
-- templates in which every placeholder spans one whole path segment; these
-- definitions describe that sub-language and its rendering into a template
-- string and a substituted request path.
-- =========================================================================

/-- One path segment of a template: literal text or a `{name}` placeholder. -/
inductive Seg where
  | lit (s : String)
  | param (name : String)

/-- The characters a segment contributes to the template string. -/
def segChars : Seg → List Char
  | Seg.lit s => s.toList
  | Seg.param n => '{' :: (n.toList ++ ['}'])

/-- The template string of a segment list: `/seg/seg/...`. -/
def templChars (segs : List Seg) : List Char :=
  segs.flatMap (fun sg => '/' :: segChars sg)

/-- The regex atoms the template scanner produces for one segment. -/
def segAtoms : Seg → List Atom
  | Seg.lit s => s.toList.map Atom.lit
  | Seg.param _ => [Atom.group]

/-- The regex atoms of the whole template. -/
def templAtoms (segs : List Seg) : List Atom :=
  segs.flatMap (fun sg => Atom.lit '/' :: segAtoms sg)

/-- The placeholder names of a template, in order. -/
def segNames : List Seg → List String
  | [] => []
  | Seg.lit _ :: rest => segNames rest
  | Seg.param n :: rest => n :: segNames rest

/-- The request path obtained by substituting the values for the
placeholders, left to right. -/
def pathChars : List Seg → List String → List Char
  | [], _ => []
  | Seg.lit t :: rest, vals => '/' :: (t.toList ++ pathChars rest vals)
  | Seg.param _ :: rest, v :: vals => '/' :: (v.toList ++ pathChars rest vals)
  | Seg.param _ :: rest, [] => '/' :: pathChars rest []

/-- The capture texts a successful match of the substituted path produces:
the values, in placeholder order. -/
def valsUsed : List Seg → List String → List (List Char)
  | [], _ => []
  | Seg.lit _ :: rest, vals => valsUsed rest vals
  | Seg.param _ :: rest, v :: vals => v.toList :: valsUsed rest vals
  | Seg.param _ :: rest, [] => valsUsed rest []

/-- Characters that neither interfere with placeholder scanning (braces) nor
carry regex meaning when spliced verbatim into the generated pattern (the
sources do not escape template text). -/
def plainChar (c : Char) : Bool :=
  !(c ∈ ['{', '}', '/', '\\', '$', '^', '.', '*', '+', '?', '(', ')', '[', ']', '|'])

/-- Well-formedness of one segment: literal text is regex-plain; a
placeholder name is nonempty and free of closing braces. -/
def segWF : Seg → Prop
  | Seg.lit s => ∀ c ∈ s.toList, plainChar c = true
  | Seg.param n => n ≠ "" ∧ '}' ∉ n.toList

-- =========================================================================
-- Generic JavaScript-semantics helpers used by validator.ts
-- =========================================================================

/-- JavaScript `toUpperCase`, at per-character granularity. -/
def strToUpper (s : String) : String :=
  String.mk (s.toList.map Char.toUpper)

/-- Splits the subject at the first occurrence of `pat`, returning the text
before it and the text after it (`none` when `pat` never occurs). -/
def splitAtSub (cs pat : List Char) : Option (List Char × List Char) :=
  if pat.isPrefixOf cs then some ([], cs.drop pat.length)
  else
    match cs with
    | [] => none
    | c :: rest => (splitAtSub rest pat).map (fun p => (c :: p.1, p.2))

/-- JavaScript `s.replace(pat, repl)` with a plain-string pattern: only the
first occurrence is replaced. -/
def jsReplaceFirst (s pat repl : String) : String :=
  match splitAtSub s.toList pat.toList with
  | some (before, after) => String.mk (before ++ repl.toList ++ after)
  | none => s

/-- Splits a character list on a separator character; like JavaScript
`split`, an empty input yields one empty piece. -/
def splitOnChar (sep : Char) (cs : List Char) : List (List Char) :=
  match cs with
  | [] => [[]]
  | c :: rest =>
    let parts := splitOnChar sep rest
    if c = sep then [] :: parts
    else
      match parts with
      | [] => [[c]]
      | p :: ps => (c :: p) :: ps

/-- The value of a hexadecimal digit, if the character is one. -/
def hexVal (c : Char) : Option Nat :=
  if '0' ≤ c ∧ c ≤ '9' then some (c.toNat - 48)
  else if 'a' ≤ c ∧ c ≤ 'f' then some (c.toNat - 87)
  else if 'A' ≤ c ∧ c ≤ 'F' then some (c.toNat - 55)
  else none

/-- Percent-decoding of single-byte `%XX` escapes, the fragment of
`decodeURIComponent` the claims exercise (multi-byte UTF-8 sequences and the
`URIError` thrown on malformed escapes are outside the modelled fragment;
malformed escapes are left verbatim here). -/
def percentDecode : List Char → List Char
  | [] => []
  | '%' :: c₁ :: c₂ :: rest =>
    (match hexVal c₁, hexVal c₂ with
     | some h, some l => Char.ofNat (16 * h + l) :: percentDecode rest
     | _, _ => '%' :: percentDecode (c₁ :: c₂ :: rest))
  | c :: rest => c :: percentDecode rest

/-- `decodeURIComponent`, restricted as described at `percentDecode`. -/
def decodeURIComp (s : String) : String :=
  String.mk (percentDecode s.toList)

/-- JavaScript property assignment `params[key] = v` on a record: an existing
binding is overwritten in place, a new one is appended. -/
def recSet {α : Type} : List (String × α) → String → α → List (String × α)
  | [], key, v => [(key, v)]
  | (k, w) :: rest, key, v =>
    if k = key then (k, v) :: rest else (k, w) :: recSet rest key v

/-- The spread merge `{...a, ...b}`: bindings of `b` shadow those of `a`.
Modelled as `b ++ a`, which has the same `recLookup` behaviour. -/
def mergeRecords {α : Type} (a b : List (String × α)) : List (String × α) :=
  b ++ a

-- =========================================================================
-- validator.ts — module-level `matchPath` (anchored `^ ... $`)
-- =========================================================================

namespace Validator

/-- validator.ts `matchPath(pattern, actualPath)`: builds `^regex$` from the
template and returns the parameter-name/captured-value pairs on a whole-string
match (`params[paramNames[i]] = match[i+1]`), `null` otherwise. -/
def matchPath (pattern actualPath : String) : Option (List (String × String)) :=
  let scanned := scanTemplate pattern.toList
  match matchAtoms scanned.1 actualPath.toList with
  | none => none
  | some caps => some (scanned.2.zip (caps.map String.mk))

end Validator

-- =========================================================================
-- pathMatcher.ts — suffix-matching variant (regex `regex$`, no `^`)
-- =========================================================================

namespace PathMatcher

/-- A JavaScript regex that is anchored only at the end succeeds when the
generated atoms match starting at some position of the subject; the engine
tries start positions left to right, so the leftmost matching start wins.
Returns that match's captures. -/
def suffixMatch (atoms : List Atom) (s : List Char) : Option (List (List Char)) :=
  (List.range (s.length + 1)).findSome? (fun i => matchAtoms atoms (s.drop i))

/-- Models `new URL(s).pathname` for an absolute http/https URL: everything
from the first slash after the authority (or "/" when the URL has no path).
An empty authority models the constructor throwing (`none`).  Multi-slash
authority oddities and non-host-based URLs are outside the modelled
fragment; the claims under verification never exercise them. -/
def urlPathname (s : String) : Option String :=
  let afterScheme := if strStartsWith s "https://" then strDrop s 8 else strDrop s 7
  let authority := afterScheme.toList.takeWhile (fun c => c ≠ '/')
  let rest := afterScheme.toList.dropWhile (fun c => c ≠ '/')
  if authority.isEmpty then none
  else if rest.isEmpty then some "/" else some (String.mk rest)

/-- pathMatcher.ts `extractPathFromUrl`: strip the query string, then the
fragment, then — if the result still looks like an absolute http(s) URL —
keep only the URL's path (falling back to the stripped string when the URL
constructor throws). -/
def extractPathFromUrl (input : String) : String :=
  let withoutQuery := stripAfter '?' input
  let withoutFragment := stripAfter '#' withoutQuery
  if strStartsWith withoutFragment "http://" || strStartsWith withoutFragment "https://" then
    match urlPathname withoutFragment with
    | some p => p
    | none => withoutFragment
  else withoutFragment

/-- pathMatcher.ts `extractPathParams`: re-derives the parameter names, runs
the end-anchored regex over the request path and zips names with the captures
of the leftmost match (empty when nothing matches or no names exist). -/
def extractPathParams (pathPattern requestUrl : String) : List (String × String) :=
  let scanned := scanTemplate pathPattern.toList
  match suffixMatch scanned.1 requestUrl.toList with
  | some caps =>
    if scanned.2.length > 0 then scanned.2.zip (caps.map String.mk) else []
  | none => []

/-- The result record of pathMatcher.ts `matchPath` (types.ts `MatchedPath`);
the operation payload is opaque to the matcher and carried through. -/
structure MatchedPath (α : Type) where
  path : String
  method : String
  operation : α
  pathParams : List (String × String)

/-- pathMatcher.ts `matchPath(spec, requestUrl, method)`: lower-cases the
method, extracts the path from the URL, then scans the declared path
templates in order, skipping templates whose path item does not declare the
method, and returns the first template whose end-anchored regex matches. -/
def matchPath {α : Type} (paths : List (String × List (String × α)))
    (requestUrl method : String) : Option (MatchedPath α) :=
  let normalizedMethod := strToLower method
  let path := extractPathFromUrl requestUrl
  paths.findSome? (fun entry =>
    match recLookup entry.2 normalizedMethod with
    | none => none
    | some operation =>
      if (suffixMatch (scanTemplate entry.1.toList).1 path.toList).isSome then
        some ⟨entry.1, normalizedMethod, operation, extractPathParams entry.1 path⟩
      else none)

end PathMatcher

-- =========================================================================
-- validator.ts — OpenAPIValidator: data model
--
-- The structures mirror the TypeScript interfaces actually read by the
-- validation flow.  Optional maps/arrays that the source guards with `?.`
-- or `|| []` are modelled as plain lists (absent = empty, which the source
-- treats identically).  Display-only error fields (`actualValue`,
-- `actualType`, `expected`) are omitted from the embedding.
-- =========================================================================

namespace Validator

/-- `ValidationError` (the fields the validation flow assigns). -/
structure VError where
  path : String
  message : String
  errorCode : Option String
  location : Option String
deriving DecidableEq

/-- `ValidationResult`. -/
structure VResult where
  valid : Bool
  errors : List VError
deriving DecidableEq

/-- One error reported by the external `jsonschema` library: the fields of
its `ValidationError` that validator.ts reads. -/
structure LibError where
  property : String
  message : String
  name : String

/-- The result object of `jsonValidator.validate`. -/
structure LibResult where
  valid : Bool
  errors : List LibError

/-- The external library call `jsonValidator.validate`; `Except.error`
models a thrown exception (caught by `validateSchema`). -/
abbrev Lib := Json → Json → Except String LibResult

/-- An OpenAPI parameter object (`name`, `in`, `required`, `schema`). -/
structure ParamObj where
  name : String
  loc : String
  required : Bool
  schema : Option Json

/-- An OpenAPI request body: `required` flag and per-media-type schema. -/
structure RequestBodyObj where
  required : Bool
  content : List (String × Option Json)

/-- An OpenAPI response definition: per-media-type schema. -/
structure ResponseObj where
  content : List (String × Option Json)

/-- An OpenAPI operation as read by the validator. -/
structure OperationObj where
  parameters : List ParamObj
  requestBody : Option RequestBodyObj
  responses : List (String × ResponseObj)

/-- A path item: the per-method operations plus path-level parameters. -/
structure PathItemObj where
  ops : List (String × OperationObj)
  parameters : List ParamObj

/-- The resolved spec as read by the validation flow. -/
structure SpecObj where
  paths : List (String × PathItemObj)

/-- `RequestInfo`. -/
structure RequestInfo where
  method : String
  path : String
  query : List (String × Json)
  body : Option Json

/-- `ResponseInfo`. -/
structure ResponseInfo where
  statusCode : Nat
  body : Option Json

-- =========================================================================
-- validator.ts — OpenAPIValidator: operations
-- =========================================================================

/-- Object field access `j.f` on a JSON value. -/
def jGet : Json → String → Option Json
  | Json.obj fields, key => recLookup fields key
  | _, _ => none

/-- Strict equality test `schema.type === t` for a string literal `t`. -/
def typeIs (schema : Json) (t : String) : Bool :=
  match jGet schema "type" with
  | some (Json.str s) => s = t
  | _ => false

/-- `value === ''`. -/
def isEmptyStrJson : Json → Bool
  | Json.str s => s = ""
  | _ => false

/-- `value === null` (for a present value). -/
def isNullJson : Json → Bool
  | Json.null => true
  | _ => false

/-- `value === undefined || value === ''` for a possibly-absent value. -/
def isAbsentOrEmpty : Option Json → Bool
  | none => true
  | some (Json.str s) => s = ""
  | some _ => false

/-- `value === undefined || value === null` for a possibly-absent value. -/
def isAbsentOrNull : Option Json → Bool
  | none => true
  | some Json.null => true
  | _ => false

/-- `value !== undefined && value !== null && value !== ''`: a response body
that is actually present (used by the 204 check). -/
def nonEmptyBody : Option Json → Bool
  | none => false
  | some Json.null => false
  | some (Json.str s) => s != ""
  | some _ => true

/-- All-decimal-digit parse (at least one digit). -/
def parseDigits (cs : List Char) : Option Nat :=
  match cs with
  | [] => none
  | _ =>
    cs.foldl
      (fun acc c =>
        match acc with
        | none => none
        | some n => if c.isDigit then some (n * 10 + (c.toNat - 48)) else none)
      (some 0)

/-- JavaScript `Number(string)` on the integer-literal fragment: surrounding
whitespace is trimmed, an empty remainder is 0, an optional sign precedes the
digits, and anything else is NaN (`none`).  Decimal points, exponents and
radix prefixes are outside the modelled fragment. -/
def numParse (s : String) : Option Int :=
  let isWs := fun c => c = ' ' ∨ c = '\t' ∨ c = '\n' ∨ c = '\r'
  let t := (s.toList.dropWhile isWs).reverse.dropWhile isWs |>.reverse
  match t with
  | [] => some 0
  | '-' :: ds => (parseDigits ds).map (fun n => -(n : Int))
  | '+' :: ds => (parseDigits ds).map (fun n => (n : Int))
  | ds => (parseDigits ds).map (fun n => (n : Int))

/-- JavaScript `Number(value)` on JSON values (integer fragment; singleton
arrays, which coerce through their element, are not exercised by the
validator and map to NaN here). -/
def jsNumber : Json → Option Int
  | Json.num n => some n
  | Json.str s => numParse s
  | Json.bool true => some 1
  | Json.bool false => some 0
  | Json.null => some 0
  | Json.arr [] => some 0
  | Json.arr (_ :: _) => none
  | Json.obj _ => none

/-- `OpenAPIValidator.validateSchema`: runs the external library and converts
its outcome — each library error becomes one `ValidationError` whose
`errorCode` is the library error's `name` verbatim; a thrown exception is
caught and converted to a single `VALIDATION_ERROR`. -/
def validateSchema (lib : Lib) (value : Json) (schema : Json) (path : String) :
    List VError :=
  match lib value schema with
  | Except.ok result =>
    if result.valid then []
    else
      result.errors.map (fun error =>
        ⟨if error.property ≠ "" then
            path ++ "." ++ jsReplaceFirst error.property "instance." ""
          else path,
          error.message, some error.name, some path⟩)
  | Except.error e =>
    [⟨path, "スキーマ検証中にエラー: " ++ e, some "VALIDATION_ERROR", none⟩]

/-- `value === 'true' || value === true`. -/
def jsEqTrue : Json → Bool
  | Json.str s => s = "true"
  | Json.bool b => b
  | _ => false

/-- The wire-format coercion applied before schema validation of a parameter
value: `integer`/`number` schemas parse the value numerically and keep it
unchanged when the parse is NaN; `boolean` schemas compare against the
literal string `'true'` (or an already-boolean `true`). -/
def coerceParam (schema : Json) (value : Json) : Json :=
  if typeIs schema "integer" || typeIs schema "number" then
    match jsNumber value with
    | some n => Json.num n
    | none => value
  else if typeIs schema "boolean" then
    Json.bool (jsEqTrue value)
  else value

/-- The body of the `validateParameters` loop for one declared parameter:
required-check, then coercion and schema validation of a present value. -/
def checkParam (lib : Lib) (location : String) (values : List (String × Json))
    (param : ParamObj) : List VError :=
  let value := recLookup values param.name
  if param.required && isAbsentOrEmpty value then
    [⟨param.name, "必須パラメータ \"" ++ param.name ++ "\" がありません",
      some "REQUIRED", some location⟩]
  else
    match value with
    | none => []
    | some v =>
      if isEmptyStrJson v then []
      else
        match param.schema with
        | none => []
        | some schema => validateSchema lib (coerceParam schema v) schema param.name

/-- `OpenAPIValidator.validateParameters`: checks each declared parameter of
the given location against the supplied values, in declaration order. -/
def validateParameters (lib : Lib) (parameters : List ParamObj)
    (location : String) (values : List (String × Json)) : List VError :=
  (parameters.filter (fun p => p.loc = location)).flatMap
    (checkParam lib location values)

/-- `parseQueryString`: splits on `&`, then each pair on `=` (first separator
only for the value slot), percent-decodes, and skips empty keys. -/
def parseQueryString (queryString : String) : List (String × String) :=
  if queryString = "" then []
  else
    (splitOnChar '&' queryString.toList).foldl
      (fun params pair =>
        let parts := splitOnChar '=' pair
        let key := parts.headD []
        if key ≠ [] then
          recSet params (decodeURIComp (String.mk key))
            (match parts.get? 1 with
             | some v => if v ≠ [] then decodeURIComp (String.mk v) else ""
             | none => "")
        else params)
      []

/-- `OpenAPIValidator.findMatchingPath`: strips the query string and returns
the first declared template whose anchored regex matches.  The source then
re-indexes `paths[pattern]`; as object keys are unique this is the entry
being iterated, so the embedding returns the path item alongside. -/
def findMatchingPath (paths : List (String × PathItemObj)) (actualPath : String) :
    Option (String × PathItemObj × List (String × String)) :=
  let pathWithoutQuery := stripAfter '?' actualPath
  paths.findSome? (fun entry =>
    match matchPath entry.1 pathWithoutQuery with
    | some params => some (entry.1, entry.2, params)
    | none => none)

/-- The `PATH_NOT_FOUND` terminal error. -/
def pathNotFoundError (path : String) : VError :=
  ⟨path, "パス \"" ++ path ++ "\" はOpenAPI仕様書に定義されていません",
    some "PATH_NOT_FOUND", none⟩

/-- The `METHOD_NOT_ALLOWED` terminal error. -/
def methodNotAllowedError (reqPath method pattern : String) : VError :=
  ⟨reqPath,
    "メソッド \"" ++ strToUpper method ++ "\" はパス \"" ++ pattern ++
      "\" に定義されていません",
    some "METHOD_NOT_ALLOWED", none⟩

/-- `OpenAPIValidator.validateRequest`. -/
def validateRequest (lib : Lib) (spec : SpecObj) (request : RequestInfo) :
    VResult :=
  match findMatchingPath spec.paths request.path with
  | none => ⟨false, [pathNotFoundError request.path]⟩
  | some (pattern, pathItem, params) =>
    match recLookup pathItem.ops request.method with
    | none => ⟨false, [methodNotAllowedError request.path request.method pattern]⟩
    | some operation =>
      let allParameters := pathItem.parameters ++ operation.parameters
      let queryString :=
        match (splitOnChar '?' request.path.toList).get? 1 with
        | some cs => String.mk cs
        | none => ""
      let queryParams := parseQueryString queryString
      let errors₁ := validateParameters lib allParameters "path"
        (params.map (fun p => (p.1, Json.str p.2)))
      let errors₂ := validateParameters lib allParameters "query"
        (mergeRecords (queryParams.map (fun p => (p.1, Json.str p.2))) request.query)
      let errors₃ :=
        match operation.requestBody with
        | none => []
        | some requestBody =>
          match recLookup requestBody.content "application/json" with
          | some (some bodySchema) =>
            if requestBody.required && isAbsentOrNull request.body then
              [⟨"body", "リクエストボディは必須です", some "REQUIRED", some "body"⟩]
            else
              match request.body with
              | some b => if isNullJson b then [] else validateSchema lib b bodySchema "body"
              | none => []
          | _ => []
      let errors := errors₁ ++ errors₂ ++ errors₃
      ⟨errors.isEmpty, errors⟩

/-- The status-class wildcard key `statusCode[0] + "XX"`. -/
def statusClassKey (sc : String) : String :=
  match sc.toList with
  | c :: _ => String.mk [c, 'X', 'X']
  | [] => "undefinedXX"

/-- The response-definition resolution chain of `validateResponse`:
exact status-code key, then class wildcard, then `"default"`. -/
def resolveResponseSpec (responses : List (String × ResponseObj))
    (statusCode : Nat) : Option ResponseObj :=
  ((recLookup responses (toString statusCode)).orElse (fun _ =>
    recLookup responses (statusClassKey (toString statusCode)))).orElse (fun _ =>
      recLookup responses "default")

/-- The `UNEXPECTED_STATUS_CODE` terminal error. -/
def unexpectedStatusError (reqPath : String) (statusCode : Nat)
    (pattern method : String) : VError :=
  ⟨reqPath,
    "ステータスコード " ++ toString statusCode ++ " は \"" ++ pattern ++
      "\" の \"" ++ strToUpper method ++ "\" に定義されていません",
    some "UNEXPECTED_STATUS_CODE", none⟩

/-- The `UNEXPECTED_BODY` error of the 204 special case. -/
def unexpectedBodyError (reqPath : String) : VError :=
  ⟨reqPath, "204 No Content レスポンスにはボディを含めるべきではありません",
    some "UNEXPECTED_BODY", none⟩

/-- `OpenAPIValidator.validateResponse`. -/
def validateResponse (lib : Lib) (spec : SpecObj) (request : RequestInfo)
    (response : ResponseInfo) : VResult :=
  match findMatchingPath spec.paths request.path with
  | none => ⟨false, [pathNotFoundError request.path]⟩
  | some (pattern, pathItem, _) =>
    match recLookup pathItem.ops request.method with
    | none => ⟨false, [methodNotAllowedError request.path request.method pattern]⟩
    | some operation =>
      match resolveResponseSpec operation.responses response.statusCode with
      | none =>
        ⟨false, [unexpectedStatusError request.path response.statusCode pattern
          request.method]⟩
      | some responseSpec =>
        if response.statusCode = 204 then
          let errors :=
            if nonEmptyBody response.body then [unexpectedBodyError request.path]
            else []
          ⟨errors.isEmpty, errors⟩
        else
          let errors :=
            match recLookup responseSpec.content "application/json" with
            | some (some schema) =>
              match response.body with
              | some b => validateSchema lib b schema "response"
              | none => []
            | _ => []
          ⟨errors.isEmpty, errors⟩

-- =========================================================================
-- validator.ts — OpenAPIValidator.resolveRefs
-- =========================================================================

/-- The worker closure `resolveRef(obj, depth)` of `OpenAPIValidator.resolveRefs`,
operating on the raw JSON of the spec.  The source guards the recursion with
`if (depth > 20) return obj` and increments `depth` on every recursive call;
the embedding counts the remaining budget (`fuel = 21 - depth`), so fuel 0 is
the exceeded-depth early return.  Structural recursion on the fuel makes the
function total on every input, cyclic component schemas included.  Primitives
are returned as-is; arrays and plain objects recurse; an object whose `$ref`
is a string pointing into `#/components/schemas/` is replaced by the resolved
referenced schema when it exists, and any other `$ref` target (or a missing
referenced schema) leaves the node untouched. -/
def resolveRef (schemas : List (String × Json)) : Nat → Json → Json
  | 0, j => j
  | fuel + 1, j =>
    match j with
    | Json.null => j
    | Json.bool _ => j
    | Json.num _ => j
    | Json.str _ => j
    | Json.arr items => Json.arr (items.map (resolveRef schemas fuel))
    | Json.obj fields =>
      match recLookup fields "$ref" with
      | some (Json.str refPath) =>
        if strStartsWith refPath "#/components/schemas/" then
          match recLookup schemas (strDrop refPath 21) with
          | some schema => resolveRef schemas fuel schema
          | none => Json.obj fields
        else Json.obj fields
      | _ => Json.obj (fields.map (fun kv => (kv.1, resolveRef schemas fuel kv.2)))

/-- The schema table a spec's `$ref`s are resolved against:
`resolved.components?.schemas` (empty when absent or not an object). -/
def schemasOf (spec : Json) : List (String × Json) :=
  match jGet spec "components" with
  | some comps =>
    match jGet comps "schemas" with
    | some (Json.obj fields) => fields
    | _ => []
  | none => []

/-- `OpenAPIValidator.resolveRefs(spec)`: deep-copies the spec (the identity
in a pure model) and resolves from depth 0, i.e. with a budget of 21 levels;
lookups go to the copy's component schemas throughout. -/
def resolveRefs (spec : Json) : Json :=
  resolveRef (schemasOf spec) 21 spec

-- =========================================================================
-- Concrete fixtures used by witnesses and counterexamples
-- =========================================================================

/-- A library stub that reports every value valid. -/
def libOk : Lib := fun _ _ => Except.ok ⟨true, []⟩

/-- A library stub reporting one keyword-named error, the shape the
`jsonschema` npm package produces (its `ValidationError.name` is the failed
keyword, e.g. `"type"`). -/
def libTypeErr : Lib := fun _ _ =>
  Except.ok ⟨false, [⟨"instance.name", "is not of a type(s) string", "type"⟩]⟩

/-- A library stub that throws (e.g. an invalid regex in `pattern`). -/
def libThrow : Lib := fun _ _ => Except.error "Invalid regular expression"

/-- A one-path spec: `GET /users/{id}` with a `200` response and no declared
parameters or bodies. -/
def witSpec : SpecObj :=
  ⟨[("/users/{id}", ⟨[("get", ⟨[], none, [("200", ⟨[]⟩)]⟩)], []⟩)]⟩

/-- An operation declaring only a 204 response that nevertheless carries a
JSON schema. -/
def body204Op : OperationObj :=
  ⟨[], none,
    [("204",
      ⟨[("application/json", some (Json.obj [("type", Json.str "object")]))]⟩)]⟩

/-- Path item carrying `body204Op` under DELETE. -/
def body204Item : PathItemObj := ⟨[("delete", body204Op)], []⟩

/-- One-path spec around `body204Item`. -/
def body204Spec : SpecObj := ⟨[("/users/{id}", body204Item)]⟩

/-- A component-schema table with a single `Pet` schema. -/
def petSchemas : List (String × Json) :=
  [("Pet", Json.obj [("type", Json.str "object")])]

/-- A one-path spec whose operation declares a required string path
parameter. -/
def paramSpec : SpecObj :=
  ⟨[("/items/{id}",
    ⟨[("get",
      ⟨[⟨"id", "path", true, some (Json.obj [("type", Json.str "string")])⟩],
        none, [("200", ⟨[]⟩)]⟩)], []⟩)]⟩

/-- A required integer query parameter declaration. -/
def intParam : ParamObj :=
  ⟨"n", "query", true, some (Json.obj [("type", Json.str "integer")])⟩

/-- An optional boolean query parameter declaration. -/
def boolParam : ParamObj :=
  ⟨"b", "query", false, some (Json.obj [("type", Json.str "boolean")])⟩

/-- The segment-structured template `/users/{id}`. -/
def c8segs : List Seg := [Seg.lit "users", Seg.param "id"]

/-- The closed error-code taxonomy named by the specification. -/
def closedCodes : List String :=
  ["PATH_NOT_FOUND", "METHOD_NOT_ALLOWED", "UNEXPECTED_STATUS_CODE",
   "UNEXPECTED_BODY", "REQUIRED", "TYPE_MISMATCH", "FORMAT_VIOLATION",
   "RANGE_VIOLATION", "ENUM_VIOLATION", "VALIDATION_ERROR"]

/-- The codes validator.ts assigns itself; every other code it emits is a
library error's `name` copied verbatim. -/
def ownCodes : List String :=
  ["PATH_NOT_FOUND", "METHOD_NOT_ALLOWED", "UNEXPECTED_STATUS_CODE",
   "UNEXPECTED_BODY", "REQUIRED", "VALIDATION_ERROR"]

/-- `c` is an error name the library reports on some input. -/
def libReportsName (lib : Lib) (c : String) : Prop :=
  ∃ v s r e, lib v s = Except.ok r ∧ e ∈ LibResult.errors r ∧ LibError.name e = c

end Validator

-- =========================================================================
-- Theorems
-- =========================================================================

open Validator

/-- Every split the group matcher considers decomposes the subject, and the
captured part is a nonempty slash-free run. -/
theorem groupSplits_mem (s pre suf : List Char)
    (h : (pre, suf) ∈ groupSplits s) :
    pre ++ suf = s ∧ pre ≠ [] ∧ ∀ c ∈ pre, c ≠ '/' := by
  unfold groupSplits at h
  simp only [List.mem_map, List.mem_range] at h
  obtain ⟨i, hi, heq⟩ := h
  have hpre : (s.takeWhile (fun c => c ≠ '/')).take
      ((s.takeWhile (fun c => c ≠ '/')).length - i) = pre := congrArg Prod.fst heq
  have hsuf : (s.takeWhile (fun c => c ≠ '/')).drop
      ((s.takeWhile (fun c => c ≠ '/')).length - i) ++
        s.dropWhile (fun c => c ≠ '/') = suf := congrArg Prod.snd heq
  refine ⟨?_, ?_, ?_⟩
  · rw [← hpre, ← hsuf, ← List.append_assoc, List.take_append_drop,
      List.takeWhile_append_dropWhile]
  · rw [← hpre]
    have hlen : ((s.takeWhile (fun c => c ≠ '/')).take
        ((s.takeWhile (fun c => c ≠ '/')).length - i)).length =
        (s.takeWhile (fun c => c ≠ '/')).length - i := by
      rw [List.length_take]
      omega
    intro hnil
    rw [hnil] at hlen
    simp only [List.length_nil] at hlen
    omega
  · intro c hc
    rw [← hpre] at hc
    have hc' := List.take_subset _ _ hc
    have hp := List.mem_takeWhile_imp hc'
    simpa using hp

/-- A successful anchored match consumes exactly the subject: expanding the
atoms with the captures rebuilds it. -/
theorem matchAtoms_sound (atoms : List Atom) (s : List Char)
    (caps : List (List Char)) (h : matchAtoms atoms s = some caps) :
    expandAtoms atoms caps = s := by
  induction atoms generalizing s caps with
  | nil =>
    unfold matchAtoms at h
    rcases s with _ | ⟨c, cs⟩
    · simp at h
      simp [expandAtoms, h]
    · simp at h
  | cons a as ih =>
    cases a with
    | lit c =>
      rcases s with _ | ⟨x, xs⟩
      · simp [matchAtoms] at h
      · unfold matchAtoms at h
        by_cases hx : x = c
        · subst hx
          simp only [if_true] at h
          simp [expandAtoms, ih xs caps h]
        · simp [hx] at h
    | group =>
      unfold matchAtoms at h
      obtain ⟨ps, hmem, hps⟩ := List.exists_of_findSome?_eq_some h
      obtain ⟨caps', hcaps', rfl⟩ : ∃ caps', matchAtoms as ps.2 = some caps' ∧
          caps = ps.1 :: caps' := by
        rcases hm : matchAtoms as ps.2 with _ | ⟨caps'⟩
        · rw [hm] at hps; simp at hps
        · rw [hm] at hps
          simp at hps
          exact ⟨caps', rfl, hps.symm⟩
      have hsplit := groupSplits_mem s ps.1 ps.2 hmem
      simp only [expandAtoms]
      rw [ih ps.2 caps' hcaps']
      exact hsplit.1

/-- C9: for every library behaviour, spec, request and response, the `valid`
flag of both `validateRequest` and `validateResponse` equals the emptiness of
the returned error list — every early return pairs `valid=false` with one
error, and every normal return computes `valid` from the accumulated list. -/
theorem c9_valid_iff_errors_empty (lib : Lib) (spec : SpecObj)
    (request : RequestInfo) (response : ResponseInfo) :
    (validateRequest lib spec request).valid =
      (validateRequest lib spec request).errors.isEmpty ∧
    (validateResponse lib spec request response).valid =
      (validateResponse lib spec request response).errors.isEmpty := by
  constructor
  · unfold validateRequest
    split
    · rfl
    · split
      · rfl
      · rfl
  · unfold validateResponse
    split
    · rfl
    · split
      · rfl
      · split
        · rfl
        · split
          · rfl
          · rfl

/-- C5: a request whose path matches no declared template returns exactly the
single terminal `PATH_NOT_FOUND` error, and one whose matched path item does
not declare the method returns exactly the single terminal
`METHOD_NOT_ALLOWED` error; the result being the entire return value, no
parameter or body validation contributes. -/
theorem c5_terminal_errors (lib : Lib) (spec : SpecObj) (request : RequestInfo) :
    (findMatchingPath spec.paths request.path = none →
      validateRequest lib spec request =
        ⟨false, [pathNotFoundError request.path]⟩) ∧
    (∀ pattern pathItem params,
      findMatchingPath spec.paths request.path = some (pattern, pathItem, params) →
      recLookup pathItem.ops request.method = none →
      validateRequest lib spec request =
        ⟨false, [methodNotAllowedError request.path request.method pattern]⟩) := by
  constructor
  · intro h
    unfold validateRequest
    rw [h]
  · intro pattern pathItem params h hm
    unfold validateRequest
    rw [h]
    dsimp only
    rw [hm]

/-- C5 witness: concrete unmatched path and undeclared method. -/
theorem c5_witness :
    validateRequest libOk witSpec ⟨"get", "/nope", [], none⟩ =
      ⟨false, [pathNotFoundError "/nope"]⟩ ∧
    validateRequest libOk witSpec ⟨"post", "/users/9", [], none⟩ =
      ⟨false, [methodNotAllowedError "/users/9" "post" "/users/{id}"]⟩ :=
  ⟨(c5_terminal_errors libOk witSpec ⟨"get", "/nope", [], none⟩).1 rfl,
   (c5_terminal_errors libOk witSpec ⟨"post", "/users/9", [], none⟩).2
     "/users/{id}" ⟨[("get", ⟨[], none, [("200", ⟨[]⟩)]⟩)], []⟩ [("id", "9")]
     rfl rfl⟩

/-- C3: for a matched operation, the response definition is resolved by
trying the exact status-code string, then the first-digit class wildcard,
then `"default"`, in that order; when all three are undeclared the result is
exactly one `UNEXPECTED_STATUS_CODE` error with no body validation. -/
theorem c3_status_resolution (lib : Lib) (spec : SpecObj)
    (request : RequestInfo) (response : ResponseInfo) (pattern : String)
    (pathItem : PathItemObj) (params : List (String × String))
    (operation : OperationObj)
    (hmatch : findMatchingPath spec.paths request.path =
      some (pattern, pathItem, params))
    (hop : recLookup pathItem.ops request.method = some operation) :
    (∀ r, recLookup operation.responses (toString response.statusCode) = some r →
      resolveResponseSpec operation.responses response.statusCode = some r) ∧
    (∀ r, recLookup operation.responses (toString response.statusCode) = none →
      recLookup operation.responses
        (statusClassKey (toString response.statusCode)) = some r →
      resolveResponseSpec operation.responses response.statusCode = some r) ∧
    (recLookup operation.responses (toString response.statusCode) = none →
      recLookup operation.responses
        (statusClassKey (toString response.statusCode)) = none →
      resolveResponseSpec operation.responses response.statusCode =
        recLookup operation.responses "default") ∧
    (resolveResponseSpec operation.responses response.statusCode = none →
      validateResponse lib spec request response =
        ⟨false, [unexpectedStatusError request.path response.statusCode pattern
          request.method]⟩) := by
  refine ⟨?_, ?_, ?_, ?_⟩
  · intro r h
    unfold resolveResponseSpec
    rw [h]
    rfl
  · intro r h1 h2
    unfold resolveResponseSpec
    rw [h1, h2]
    rfl
  · intro h1 h2
    unfold resolveResponseSpec
    rw [h1, h2]
    rfl
  · intro h
    unfold validateResponse
    rw [hmatch]
    dsimp only
    rw [hop]
    dsimp only
    rw [h]

/-- C3 witness: status 500 against an operation declaring only `"200"`. -/
theorem c3_witness :
    resolveResponseSpec [("200", (⟨[]⟩ : ResponseObj))] 200 = some ⟨[]⟩ ∧
    validateResponse libOk witSpec ⟨"get", "/users/9", [], none⟩ ⟨500, none⟩ =
      ⟨false, [unexpectedStatusError "/users/9" 500 "/users/{id}" "get"]⟩ :=
  ⟨(c3_status_resolution libOk witSpec ⟨"get", "/users/9", [], none⟩ ⟨200, none⟩
      "/users/{id}" ⟨[("get", ⟨[], none, [("200", ⟨[]⟩)]⟩)], []⟩ [("id", "9")]
      ⟨[], none, [("200", ⟨[]⟩)]⟩ rfl rfl).1 ⟨[]⟩ rfl,
   (c3_status_resolution libOk witSpec ⟨"get", "/users/9", [], none⟩ ⟨500, none⟩
      "/users/{id}" ⟨[("get", ⟨[], none, [("200", ⟨[]⟩)]⟩)], []⟩ [("id", "9")]
      ⟨[], none, [("200", ⟨[]⟩)]⟩ rfl rfl).2.2.2 rfl⟩

/-- C4: for a 204 response whose definition resolved, a present non-null
non-empty body yields exactly one `UNEXPECTED_BODY` error and no schema
validation of the body (whatever schema the response declares), while an
absent or empty body yields a valid result with zero errors. -/
theorem c4_204_body (lib : Lib) (spec : SpecObj) (request : RequestInfo)
    (response : ResponseInfo) (pattern : String) (pathItem : PathItemObj)
    (params : List (String × String)) (operation : OperationObj)
    (responseSpec : ResponseObj)
    (hmatch : findMatchingPath spec.paths request.path =
      some (pattern, pathItem, params))
    (hop : recLookup pathItem.ops request.method = some operation)
    (hresolve : resolveResponseSpec operation.responses response.statusCode =
      some responseSpec)
    (h204 : response.statusCode = 204) :
    (nonEmptyBody response.body = true →
      validateResponse lib spec request response =
        ⟨false, [unexpectedBodyError request.path]⟩) ∧
    (nonEmptyBody response.body = false →
      validateResponse lib spec request response = ⟨true, []⟩) := by
  constructor
  · intro hb
    unfold validateResponse
    rw [hmatch]
    dsimp only
    rw [hop]
    dsimp only
    rw [hresolve]
    dsimp only
    rw [if_pos h204, hb]
    rfl
  · intro hb
    unfold validateResponse
    rw [hmatch]
    dsimp only
    rw [hop]
    dsimp only
    rw [hresolve]
    dsimp only
    rw [if_pos h204, hb]
    rfl

/-- C4 witness: a 204 with body `{"deleted": true}` against a response that
even declares a schema, and a 204 with an absent body. -/
theorem c4_witness :
    validateResponse libTypeErr body204Spec ⟨"delete", "/users/9", [], none⟩
      ⟨204, some (Json.obj [("deleted", Json.bool true)])⟩ =
      ⟨false, [unexpectedBodyError "/users/9"]⟩ ∧
    validateResponse libTypeErr body204Spec ⟨"delete", "/users/9", [], none⟩
      ⟨204, none⟩ = ⟨true, []⟩ :=
  ⟨(c4_204_body libTypeErr body204Spec ⟨"delete", "/users/9", [], none⟩
      ⟨204, some (Json.obj [("deleted", Json.bool true)])⟩
      "/users/{id}" body204Item [("id", "9")] body204Op
      ⟨[("application/json", some (Json.obj [("type", Json.str "object")]))]⟩
      rfl rfl rfl rfl).1 rfl,
   (c4_204_body libTypeErr body204Spec ⟨"delete", "/users/9", [], none⟩
      ⟨204, none⟩ "/users/{id}" body204Item [("id", "9")] body204Op
      ⟨[("application/json", some (Json.obj [("type", Json.str "object")]))]⟩
      rfl rfl rfl rfl).2 rfl⟩

/-- C7: the reference resolver is total by construction (structural recursion
on the depth budget); at an exceeded depth the node is returned unresolved, a
`$ref` whose target is not of the form `#/components/schemas/<name>` is
returned untouched (as is one whose referenced schema does not exist), and a
matching `$ref` is replaced by the resolution of the referenced schema. -/
theorem c7_resolveRefs_guarded (schemas : List (String × Json)) (j : Json)
    (fields : List (String × Json)) (refPath : String) :
    (resolveRef schemas 0 j = j) ∧
    (recLookup fields "$ref" = some (Json.str refPath) →
      strStartsWith refPath "#/components/schemas/" = false →
      ∀ fuel, resolveRef schemas fuel (Json.obj fields) = Json.obj fields) ∧
    (recLookup fields "$ref" = some (Json.str refPath) →
      recLookup schemas (strDrop refPath 21) = none →
      ∀ fuel, resolveRef schemas fuel (Json.obj fields) = Json.obj fields) ∧
    (recLookup fields "$ref" = some (Json.str refPath) →
      strStartsWith refPath "#/components/schemas/" = true →
      ∀ fuel schema, recLookup schemas (strDrop refPath 21) = some schema →
        resolveRef schemas (fuel + 1) (Json.obj fields) =
          resolveRef schemas fuel schema) := by
  refine ⟨rfl, ?_, ?_, ?_⟩
  · intro href hstart fuel
    cases fuel with
    | zero => rfl
    | succ n => simp [resolveRef, href, hstart]
  · intro href hlook fuel
    cases fuel with
    | zero => rfl
    | succ n => simp [resolveRef, href, hlook]
  · intro href hstart fuel schema hlook
    simp [resolveRef, href, hstart, hlook]

/-- C7 witness: a depth-exhausted node, a foreign `$ref` target, and an
inlined component reference. -/
theorem c7_witness :
    resolveRef petSchemas 0 (Json.str "x") = Json.str "x" ∧
    resolveRef petSchemas 5
        (Json.obj [("$ref", Json.str "#/definitions/Pet")]) =
      Json.obj [("$ref", Json.str "#/definitions/Pet")] ∧
    resolveRef petSchemas 1
        (Json.obj [("$ref", Json.str "#/components/schemas/Pet")]) =
      resolveRef petSchemas 0 (Json.obj [("type", Json.str "object")]) :=
  ⟨(c7_resolveRefs_guarded petSchemas (Json.str "x") [] "").1,
   (c7_resolveRefs_guarded petSchemas Json.null
      [("$ref", Json.str "#/definitions/Pet")] "#/definitions/Pet").2.1
     rfl rfl 5,
   (c7_resolveRefs_guarded petSchemas Json.null
      [("$ref", Json.str "#/components/schemas/Pet")]
      "#/components/schemas/Pet").2.2.2 rfl rfl 0
     (Json.obj [("type", Json.str "object")]) rfl⟩

/-- C10: the module-level matchPath of validator.ts anchors its regex at both
ends — a successful match means the request path is exactly the template with
each placeholder replaced by its captured segment — so the prefixed path
/api/v2/users/123 does not match the template /users/{id}: findMatchingPath
fails and validateRequest reports PATH_NOT_FOUND, although the unanchored
pathMatcher.ts variant accepts the same path. -/
theorem c10_anchored_matching :
    (∀ (pattern path : String) (caps : List (List Char)),
      matchAtoms (scanTemplate pattern.toList).1 path.toList = some caps →
      path.toList = expandAtoms (scanTemplate pattern.toList).1 caps) ∧
    Validator.matchPath "/users/{id}" "/users/123" = some [("id", "123")] ∧
    Validator.matchPath "/users/{id}" "/api/v2/users/123" = none ∧
    findMatchingPath witSpec.paths "/api/v2/users/123" = none ∧
    (∀ lib : Lib,
      validateRequest lib witSpec ⟨"get", "/api/v2/users/123", [], none⟩ =
        ⟨false, [pathNotFoundError "/api/v2/users/123"]⟩) ∧
    (PathMatcher.suffixMatch (scanTemplate "/users/{id}".toList).1
      "/api/v2/users/123".toList).isSome = true := by
  refine ⟨?_, rfl, rfl, rfl, ?_, rfl⟩
  · intro pattern path caps h
    exact (matchAtoms_sound _ _ _ h).symm
  · intro lib
    rfl

/-- C10 witness: the anchored-exactness component applied at the matching
path /users/123. -/
theorem c10_witness :
    "/users/123".toList =
      expandAtoms (scanTemplate "/users/{id}".toList).1 ["123".toList] :=
  c10_anchored_matching.1 "/users/{id}" "/users/123" ["123".toList] rfl

/-- C1: the pathMatcher.ts matcher strips the query string and fragment from
the request URL and matches each template's generated regex unanchored at the
start (anchored only at the end), so whenever some suffix of the request path
is an exact instance of a declared template whose path item carries the
method, the match succeeds — /users/{id} accepts both /users/123 and
/api/v2/users/123, tolerating an arbitrary base-path prefix. -/
theorem c1_suffix_matching {α : Type} (paths : List (String × List (String × α)))
    (pattern : String) (item : List (String × α)) (url method : String)
    (pre tail : List Char)
    (hmem : (pattern, item) ∈ paths)
    (hop : (recLookup item (strToLower method)).isSome = true)
    (hurl : (PathMatcher.extractPathFromUrl url).toList = pre ++ tail)
    (hmatch : (matchAtoms (scanTemplate pattern.toList).1 tail).isSome = true) :
    (PathMatcher.matchPath paths url method).isSome = true := by
  obtain ⟨op, hopEq⟩ := Option.isSome_iff_exists.mp hop
  have hsuffix : (PathMatcher.suffixMatch (scanTemplate pattern.toList).1
      (PathMatcher.extractPathFromUrl url).toList).isSome = true := by
    unfold PathMatcher.suffixMatch
    rw [List.findSome?_isSome_iff]
    refine ⟨pre.length, ?_, ?_⟩
    · rw [List.mem_range, hurl, List.length_append]
      omega
    · rw [hurl, List.drop_left]
      exact hmatch
  unfold PathMatcher.matchPath
  rw [List.findSome?_isSome_iff]
  refine ⟨(pattern, item), hmem, ?_⟩
  dsimp only
  rw [hopEq]
  dsimp only
  rw [hsuffix]
  simp

/-- Every error `validateSchema` emits is the caught-exception
`VALIDATION_ERROR` or carries a library error's name verbatim. -/
theorem validateSchema_codes (lib : Lib) (value schema : Json) (path : String)
    (e : VError) (he : e ∈ validateSchema lib value schema path) :
    ∃ c, e.errorCode = some c ∧
      (c = "VALIDATION_ERROR" ∨ libReportsName lib c) := by
  unfold validateSchema at he
  rcases hres : lib value schema with msg | r <;> rw [hres] at he
  · simp only [List.mem_singleton] at he
    subst he
    exact ⟨"VALIDATION_ERROR", rfl, Or.inl rfl⟩
  · by_cases hv : r.valid
    · simp [hv] at he
    · simp only [hv, if_false, Bool.false_eq_true, List.mem_map] at he
      obtain ⟨le, hle, rfl⟩ := he
      exact ⟨le.name, rfl, Or.inr ⟨value, schema, r, le, hres, hle, rfl⟩⟩

/-- Every error `checkParam` emits is `REQUIRED` or comes from
`validateSchema`. -/
theorem checkParam_codes (lib : Lib) (location : String)
    (values : List (String × Json)) (param : ParamObj) (e : VError)
    (he : e ∈ checkParam lib location values param) :
    ∃ c, e.errorCode = some c ∧
      (c = "REQUIRED" ∨ c = "VALIDATION_ERROR" ∨ libReportsName lib c) := by
  unfold checkParam at he
  dsimp only at he
  by_cases hreq :
      (param.required && isAbsentOrEmpty (recLookup values param.name)) = true
  · rw [if_pos hreq] at he
    simp only [List.mem_singleton] at he
    subst he
    exact ⟨"REQUIRED", rfl, Or.inl rfl⟩
  · rw [if_neg hreq] at he
    rcases hval : recLookup values param.name with _ | v <;> rw [hval] at he
    · simp at he
    · dsimp only at he
      by_cases hemp : isEmptyStrJson v = true
      · rw [if_pos hemp] at he
        simp at he
      · rw [if_neg hemp] at he
        rcases hsch : param.schema with _ | schema <;> rw [hsch] at he
        · simp at he
        · dsimp only at he
          obtain ⟨c, hc, hor⟩ := validateSchema_codes lib _ _ _ e he
          rcases hor with h | h
          · exact ⟨c, hc, Or.inr (Or.inl h)⟩
          · exact ⟨c, hc, Or.inr (Or.inr h)⟩

/-- Every error `validateParameters` emits comes from some declared
parameter's `checkParam`. -/
theorem validateParameters_codes (lib : Lib) (parameters : List ParamObj)
    (location : String) (values : List (String × Json)) (e : VError)
    (he : e ∈ validateParameters lib parameters location values) :
    ∃ c, e.errorCode = some c ∧
      (c = "REQUIRED" ∨ c = "VALIDATION_ERROR" ∨ libReportsName lib c) := by
  unfold validateParameters at he
  rw [List.mem_flatMap] at he
  obtain ⟨param, _, hmem⟩ := he
  exact checkParam_codes lib location values param e hmem

/-- C2 counterexample: with the library reporting its usual keyword-named
error (`name = "type"`), the validator copies that name into `errorCode`
verbatim — the emitted code is `"type"`, which is outside the claimed closed
taxonomy, refuting the closed-set half of the claim. -/
theorem c2_counterexample :
    (validateRequest libTypeErr paramSpec
        ⟨"get", "/items/5", [], none⟩).errors.map VError.errorCode =
      [some "type"] ∧
    "type" ∉ closedCodes := by
  constructor
  · rfl
  · decide

/-- C2 amended: every error produced by validateRequest or validateResponse
carries some errorCode, drawn from the validator's own six codes
(PATH_NOT_FOUND, METHOD_NOT_ALLOWED, UNEXPECTED_STATUS_CODE, UNEXPECTED_BODY,
REQUIRED, VALIDATION_ERROR) or copied verbatim from the name of an error the
library reports; and an exception thrown while evaluating one schema node is
caught locally and converted into a single VALIDATION_ERROR. -/
theorem c2_codes_and_catch (lib : Lib) (spec : SpecObj) (request : RequestInfo)
    (response : ResponseInfo) (e : VError) :
    ((e ∈ (validateRequest lib spec request).errors ∨
      e ∈ (validateResponse lib spec request response).errors) →
      ∃ c, e.errorCode = some c ∧ (c ∈ ownCodes ∨ libReportsName lib c)) ∧
    (∀ value schema path msg, lib value schema = Except.error msg →
      validateSchema lib value schema path =
        [⟨path, "スキーマ検証中にエラー: " ++ msg, some "VALIDATION_ERROR",
          none⟩]) := by
  constructor
  · intro he
    rcases he with he | he
    · unfold validateRequest at he
      split at he
      · simp only [List.mem_singleton] at he
        subst he
        exact ⟨"PATH_NOT_FOUND", rfl, Or.inl (by decide)⟩
      · split at he
        · simp only [List.mem_singleton] at he
          subst he
          exact ⟨"METHOD_NOT_ALLOWED", rfl, Or.inl (by decide)⟩
        · dsimp only at he
          simp only [List.mem_append] at he
          have hparam : ∀ ps loc vals, e ∈ validateParameters lib ps loc vals →
              ∃ c, e.errorCode = some c ∧ (c ∈ ownCodes ∨ libReportsName lib c) := by
            intro ps loc vals hmem
            obtain ⟨c, hc, hor⟩ := validateParameters_codes lib ps loc vals e hmem
            refine ⟨c, hc, ?_⟩
            rcases hor with h | h | h
            · exact Or.inl (by simp [h, ownCodes])
            · exact Or.inl (by simp [h, ownCodes])
            · exact Or.inr h
          rcases he with (he | he) | he
          · exact hparam _ _ _ he
          · exact hparam _ _ _ he
          · split at he
            · simp at he
            · split at he
              · split at he
                · simp only [List.mem_singleton] at he
                  subst he
                  exact ⟨"REQUIRED", rfl, Or.inl (by decide)⟩
                · split at he
                  · split at he
                    · simp at he
                    · obtain ⟨c, hc, hor⟩ :=
                        validateSchema_codes lib _ _ _ e he
                      refine ⟨c, hc, ?_⟩
                      rcases hor with h | h
                      · exact Or.inl (by simp [h, ownCodes])
                      · exact Or.inr h
                  · simp at he
              · simp at he
    · unfold validateResponse at he
      split at he
      · simp only [List.mem_singleton] at he
        subst he
        exact ⟨"PATH_NOT_FOUND", rfl, Or.inl (by decide)⟩
      · split at he
        · simp only [List.mem_singleton] at he
          subst he
          exact ⟨"METHOD_NOT_ALLOWED", rfl, Or.inl (by decide)⟩
        · split at he
          · simp only [List.mem_singleton] at he
            subst he
            exact ⟨"UNEXPECTED_STATUS_CODE", rfl, Or.inl (by decide)⟩
          · split at he
            · dsimp only at he
              split at he
              · simp only [List.mem_singleton] at he
                subst he
                exact ⟨"UNEXPECTED_BODY", rfl, Or.inl (by decide)⟩
              · simp at he
            · dsimp only at he
              split at he
              · split at he
                · obtain ⟨c, hc, hor⟩ := validateSchema_codes lib _ _ _ e he
                  refine ⟨c, hc, ?_⟩
                  rcases hor with h | h
                  · exact Or.inl (by simp [h, ownCodes])
                  · exact Or.inr h
                · simp at he
              · simp at he
  · intro value schema path msg hthrow
    unfold validateSchema
    rw [hthrow]

/-- C2 witness: a terminal error's code is covered by the amended statement,
and a throwing library call is converted to the single VALIDATION_ERROR. -/
theorem c2_witness :
    (∃ c, (pathNotFoundError "/nope").errorCode = some c ∧
      (c ∈ ownCodes ∨ libReportsName libThrow c)) ∧
    validateSchema libThrow Json.null (Json.obj [("pattern", Json.str "[")])
        "body" =
      [⟨"body", "スキーマ検証中にエラー: Invalid regular expression",
        some "VALIDATION_ERROR", none⟩] :=
  ⟨(c2_codes_and_catch libThrow witSpec ⟨"get", "/nope", [], none⟩
      ⟨200, none⟩ (pathNotFoundError "/nope")).1
      (Or.inl (List.mem_singleton_self _)),
   (c2_codes_and_catch libThrow witSpec ⟨"get", "/nope", [], none⟩
      ⟨200, none⟩ (pathNotFoundError "/nope")).2 Json.null
      (Json.obj [("pattern", Json.str "[")]) "body"
      "Invalid regular expression" rfl⟩

/-- C1 witness: the template /users/{id} under GET matches both the bare path
/users/123 and the base-path-prefixed URL /api/v2/users/123?x=1. -/
theorem c1_witness :
    (PathMatcher.matchPath [("/users/{id}", [("get", 0)])]
      "/users/123" "GET").isSome = true ∧
    (PathMatcher.matchPath [("/users/{id}", [("get", 0)])]
      "/api/v2/users/123?x=1" "GET").isSome = true :=
  ⟨c1_suffix_matching [("/users/{id}", [("get", 0)])] "/users/{id}"
      [("get", 0)] "/users/123" "GET" [] "/users/123".toList
      (List.mem_singleton_self _) rfl rfl rfl,
   c1_suffix_matching [("/users/{id}", [("get", 0)])] "/users/{id}"
      [("get", 0)] "/api/v2/users/123?x=1" "GET" "/api/v2".toList
      "/users/123".toList (List.mem_singleton_self _) rfl rfl rfl⟩

/-- `checkParam` reads the supplied values only at the declared parameter's
name. -/
theorem checkParam_congr (lib : Lib) (location : String)
    (values values' : List (String × Json)) (param : ParamObj)
    (h : recLookup values param.name = recLookup values' param.name) :
    checkParam lib location values param = checkParam lib location values' param := by
  unfold checkParam
  rw [h]

/-- C6: a required parameter whose value is absent or the empty string gets
exactly one REQUIRED error; a present non-empty string value is coerced
before schema validation — numeric parse for integer/number schemas, leaving
non-numeric strings unchanged as strings, and comparison with the literal
string "true" for boolean schemas; and parameters not declared in the spec
are never flagged — the outcome depends only on the values supplied under
declared parameter names. -/
theorem c6_parameter_validation (lib : Lib) (parameters : List ParamObj)
    (location : String) (values : List (String × Json)) (param : ParamObj)
    (s : String) :
    (param.required = true →
      isAbsentOrEmpty (recLookup values param.name) = true →
      checkParam lib location values param =
        [⟨param.name, "必須パラメータ \"" ++ param.name ++ "\" がありません",
          some "REQUIRED", some location⟩]) ∧
    (recLookup values param.name = some (Json.str s) → s ≠ "" →
      ∀ schema, param.schema = some schema →
        (typeIs schema "integer" = true ∨ typeIs schema "number" = true) →
        checkParam lib location values param =
          validateSchema lib
            (match numParse s with
             | some n => Json.num n
             | none => Json.str s) schema param.name) ∧
    (recLookup values param.name = some (Json.str s) → s ≠ "" →
      ∀ schema, param.schema = some schema →
        typeIs schema "integer" = false → typeIs schema "number" = false →
        typeIs schema "boolean" = true →
        checkParam lib location values param =
          validateSchema lib (Json.bool (s == "true")) schema param.name) ∧
    (∀ values',
      (∀ p ∈ parameters, recLookup values p.name = recLookup values' p.name) →
      validateParameters lib parameters location values =
        validateParameters lib parameters location values') := by
  refine ⟨?_, ?_, ?_, ?_⟩
  · intro hreq habs
    unfold checkParam
    dsimp only
    rw [hreq, habs]
    rfl
  · intro hval hs schema hsch htype
    have habs : isAbsentOrEmpty (some (Json.str s)) = false := by
      simp [isAbsentOrEmpty, hs]
    have hemp : isEmptyStrJson (Json.str s) = false := by
      simp [isEmptyStrJson, hs]
    have hco : coerceParam schema (Json.str s) =
        (match numParse s with
         | some n => Json.num n
         | none => Json.str s) := by
      unfold coerceParam
      rcases htype with h | h
      · rw [h]
        rfl
      · rw [h, Bool.or_true]
        rfl
    unfold checkParam
    dsimp only
    rw [hval, habs, Bool.and_false]
    simp only [Bool.false_eq_true, if_false]
    rw [hsch]
    dsimp only
    rw [hemp]
    simp only [Bool.false_eq_true, if_false]
    rw [hco]
  · intro hval hs schema hsch hint hnum hbool
    have habs : isAbsentOrEmpty (some (Json.str s)) = false := by
      simp [isAbsentOrEmpty, hs]
    have hemp : isEmptyStrJson (Json.str s) = false := by
      simp [isEmptyStrJson, hs]
    have hco : coerceParam schema (Json.str s) = Json.bool (s == "true") := by
      unfold coerceParam
      rw [hint, hnum, hbool]
      rfl
    unfold checkParam
    dsimp only
    rw [hval, habs, Bool.and_false]
    simp only [Bool.false_eq_true, if_false]
    rw [hsch]
    dsimp only
    rw [hemp]
    simp only [Bool.false_eq_true, if_false]
    rw [hco]
  · intro values' hagree
    unfold validateParameters
    induction parameters with
    | nil => rfl
    | cons p ps ih =>
      by_cases hloc : p.loc = location
      · have h1 := checkParam_congr lib location values values' p
          (hagree p (List.mem_cons_self p ps))
        have h2 := ih (fun q hq => hagree q (List.mem_cons_of_mem p hq))
        simp [List.filter_cons, hloc, List.flatMap_cons, h1, h2]
      · have h2 := ih (fun q hq => hagree q (List.mem_cons_of_mem p hq))
        simp [List.filter_cons, hloc, h2]

/-- C6 witness: a missing required parameter, a non-numeric and a numeric
integer-parameter value, a boolean parameter value, and insensitivity to an
undeclared parameter's value. -/
theorem c6_witness :
    checkParam libOk "query" [] intParam =
      [⟨"n", "必須パラメータ \"n\" がありません", some "REQUIRED",
        some "query"⟩] ∧
    checkParam libOk "query" [("n", Json.str "abc")] intParam =
      validateSchema libOk (Json.str "abc")
        (Json.obj [("type", Json.str "integer")]) "n" ∧
    checkParam libOk "query" [("n", Json.str "42")] intParam =
      validateSchema libOk (Json.num 42)
        (Json.obj [("type", Json.str "integer")]) "n" ∧
    checkParam libOk "query" [("b", Json.str "true")] boolParam =
      validateSchema libOk (Json.bool true)
        (Json.obj [("type", Json.str "boolean")]) "b" ∧
    validateParameters libOk [intParam] "query" [("n", Json.str "1")] =
      validateParameters libOk [intParam] "query"
        [("n", Json.str "1"), ("undeclared", Json.str "zzz")] := by
  refine ⟨?_, ?_, ?_, ?_, ?_⟩
  · exact (c6_parameter_validation libOk [] "query" [] intParam "").1 rfl rfl
  · exact (c6_parameter_validation libOk [] "query" [("n", Json.str "abc")]
      intParam "abc").2.1 rfl (by decide)
      (Json.obj [("type", Json.str "integer")]) rfl (Or.inl rfl)
  · exact (c6_parameter_validation libOk [] "query" [("n", Json.str "42")]
      intParam "42").2.1 rfl (by decide)
      (Json.obj [("type", Json.str "integer")]) rfl (Or.inl rfl)
  · exact (c6_parameter_validation libOk [] "query" [("b", Json.str "true")]
      boolParam "true").2.2.1 rfl (by decide)
      (Json.obj [("type", Json.str "boolean")]) rfl rfl rfl rfl
  · exact (c6_parameter_validation libOk [intParam] "query"
      [("n", Json.str "1")] intParam "").2.2.2
      [("n", Json.str "1"), ("undeclared", Json.str "zzz")]
      (by intro p hp; rw [List.mem_singleton] at hp; subst hp; rfl)

/-- Rebuilding a string from its characters is the identity. -/
theorem strMk_toList (s : String) : String.mk s.toList = s := rfl

/-- Scanning a run of non-brace literal characters prepends literal atoms. -/
theorem scanTemplate_lit_run (t : List Char) (ht : ∀ c ∈ t, c ≠ '{')
    (rest : List Char) :
    scanTemplate (t ++ rest) =
      (t.map Atom.lit ++ (scanTemplate rest).1, (scanTemplate rest).2) := by
  induction t with
  | nil => rfl
  | cons c cs ih =>
    rw [List.cons_append, scanTemplate_cons_lit c (cs ++ rest)
      (Or.inl (ht c (List.mem_cons_self c cs)))]
    rw [ih (fun d hd => ht d (List.mem_cons_of_mem c hd))]
    simp

/-- `takeName` on a well-formed placeholder body reads exactly the name. -/
theorem takeName_exact (n rest : List Char) (hn : n ≠ []) (hbrace : '}' ∉ n) :
    takeName (n ++ '}' :: rest) = some (n, rest) := by
  have hp : ∀ c ∈ n, (fun c : Char => decide (c ≠ '}')) c = true := by
    intro c hc
    simp only [decide_eq_true_eq]
    intro h
    exact hbrace (h ▸ hc)
  have hdrop : (n ++ '}' :: rest).dropWhile (fun c => c ≠ '}') = '}' :: rest := by
    rw [List.dropWhile_append_of_pos hp]
    simp [List.dropWhile_cons]
  have htake : (n ++ '}' :: rest).takeWhile (fun c => c ≠ '}') = n := by
    rw [List.takeWhile_append_of_pos hp]
    simp [List.takeWhile_cons]
  have hne : n.isEmpty = false := by
    cases n
    · exact absurd rfl hn
    · rfl
  unfold takeName
  rw [hdrop, htake]
  simp [hne]

/-- Scanning a rendered segment-structured template yields its atoms and its
placeholder names. -/
theorem scanTemplate_templ (segs : List Seg) (hwf : ∀ sg ∈ segs, segWF sg) :
    scanTemplate (templChars segs) = (templAtoms segs, segNames segs) := by
  induction segs with
  | nil => rfl
  | cons sg rest ih =>
    have hrest := ih (fun x hx => hwf x (List.mem_cons_of_mem sg hx))
    cases sg with
    | lit t =>
      have hlit : ∀ c ∈ t.toList, c ≠ '{' := by
        intro c hc hcEq
        have hp := hwf (Seg.lit t) (List.mem_cons_self _ _) c hc
        subst hcEq
        simp [plainChar] at hp
      show scanTemplate ('/' :: (t.toList ++ templChars rest)) = _
      rw [scanTemplate_cons_lit '/' _ (Or.inl (by decide))]
      rw [scanTemplate_lit_run t.toList hlit (templChars rest)]
      rw [hrest]
      show (Atom.lit '/' :: (t.toList.map Atom.lit ++ templAtoms rest),
        segNames rest) = _
      simp [templAtoms, segNames, segAtoms]
    | param n =>
      obtain ⟨hn, hbrace⟩ := hwf (Seg.param n) (List.mem_cons_self _ _)
      have hnl : n.toList ≠ [] := by
        intro h
        apply hn
        have := congrArg String.mk h
        rwa [strMk_toList] at this
      have hshape : templChars (Seg.param n :: rest) =
          '/' :: ('{' :: (n.toList ++ '}' :: templChars rest)) := by
        simp [templChars, segChars]
      rw [hshape]
      rw [scanTemplate_cons_lit '/' _ (Or.inl (by decide))]
      rw [scanTemplate_cons_brace (n.toList ++ '}' :: templChars rest) n.toList
        (templChars rest) (takeName_exact n.toList (templChars rest) hnl hbrace)]
      rw [hrest]
      show (Atom.lit '/' :: (Atom.group :: templAtoms rest),
        String.mk n.toList :: segNames rest) = _
      rw [strMk_toList]
      simp [templAtoms, segNames, segAtoms]

/-- One literal atom consumes one equal character. -/
theorem matchAtoms_lit_cons (c : Char) (as : List Atom) (s : List Char) :
    matchAtoms (Atom.lit c :: as) (c :: s) = matchAtoms as s := by
  conv_lhs => rw [matchAtoms]
  rw [if_pos rfl]

/-- Matching a literal character run consumes it. -/
theorem matchAtoms_lit_append (t : List Char) (as : List Atom) (s : List Char) :
    matchAtoms (t.map Atom.lit ++ as) (t ++ s) = matchAtoms as s := by
  induction t with
  | nil => rfl
  | cons c cs ih =>
    show matchAtoms (Atom.lit c :: (cs.map Atom.lit ++ as)) (c :: (cs ++ s)) = _
    rw [matchAtoms_lit_cons]
    exact ih

/-- A group followed by a slash-delimited rest captures exactly the leading
slash-free value: its greedy maximal candidate is the value itself, and the
rest of the atoms match the remaining input. -/
theorem matchAtoms_group_delimited (as : List Atom) (v tail : List Char)
    (caps : List (List Char)) (hv : v ≠ []) (hslash : '/' ∉ v)
    (htail : tail = [] ∨ ∃ t', tail = '/' :: t')
    (h : matchAtoms as tail = some caps) :
    matchAtoms (Atom.group :: as) (v ++ tail) = some (v :: caps) := by
  have hp : ∀ c ∈ v, (fun c : Char => decide (c ≠ '/')) c = true := by
    intro c hc
    simp only [decide_eq_true_eq]
    intro hcEq
    exact hslash (hcEq ▸ hc)
  have htake : (v ++ tail).takeWhile (fun c => c ≠ '/') = v := by
    rw [List.takeWhile_append_of_pos hp]
    rcases htail with rfl | ⟨t', rfl⟩
    · simp
    · simp [List.takeWhile_cons]
  have hdropw : (v ++ tail).dropWhile (fun c => c ≠ '/') = tail := by
    rw [List.dropWhile_append_of_pos hp]
    rcases htail with rfl | ⟨t', rfl⟩
    · simp
    · simp [List.dropWhile_cons]
  obtain ⟨m, hm⟩ : ∃ m, v.length = m + 1 := by
    rcases v with _ | ⟨c0, v0⟩
    · exact absurd rfl hv
    · exact ⟨v0.length, by simp⟩
  conv_lhs => rw [matchAtoms]
  unfold groupSplits
  rw [htake, hdropw]
  dsimp only
  rw [hm, List.range_succ_eq_map, List.map_cons, List.findSome?_cons]
  dsimp only
  rw [Nat.sub_zero, ← hm, List.take_length, List.drop_length, List.nil_append, h]
  rfl

/-- Matching the rendered path of a segment template recovers exactly the
substituted values as captures. -/
theorem matchAtoms_templ (segs : List Seg) (vals : List String)
    (hlen : vals.length = (segNames segs).length)
    (hvals : ∀ v ∈ vals, v ≠ "" ∧ '/' ∉ v.toList) :
    matchAtoms (templAtoms segs) (pathChars segs vals) =
      some (valsUsed segs vals) := by
  induction segs generalizing vals with
  | nil => rfl
  | cons sg rest ih =>
    cases sg with
    | lit t =>
      show matchAtoms
          (Atom.lit '/' :: (t.toList.map Atom.lit ++ templAtoms rest))
          ('/' :: (t.toList ++ pathChars rest vals)) = _
      rw [matchAtoms_lit_cons, matchAtoms_lit_append]
      exact ih vals hlen hvals
    | param n =>
      rcases vals with _ | ⟨v, vals'⟩
      · simp [segNames] at hlen
      · show matchAtoms (Atom.lit '/' :: (Atom.group :: templAtoms rest))
            ('/' :: (v.toList ++ pathChars rest vals')) =
          some (v.toList :: valsUsed rest vals')
        unfold matchAtoms
        rw [if_pos rfl]
        obtain ⟨hv, hslash⟩ := hvals v (List.mem_cons_self v vals')
        apply matchAtoms_group_delimited
        · intro hcontra
          apply hv
          have := congrArg String.mk hcontra
          rwa [strMk_toList] at this
        · exact hslash
        · rcases rest with _ | ⟨x, r⟩
          · exact Or.inl rfl
          · refine Or.inr ?_
            cases x with
            | lit t' => exact ⟨_, rfl⟩
            | param n' =>
              cases vals' with
              | nil => exact ⟨_, rfl⟩
              | cons w ws => exact ⟨_, rfl⟩
        · exact ih vals' (by simpa [segNames] using hlen)
            (fun u hu => hvals u (List.mem_cons_of_mem v hu))

/-- With exactly one value per placeholder, the capture list is the value
list. -/
theorem valsUsed_eq (segs : List Seg) (vals : List String)
    (hlen : vals.length = (segNames segs).length) :
    valsUsed segs vals = vals.map String.toList := by
  induction segs generalizing vals with
  | nil =>
    cases vals with
    | nil => rfl
    | cons v vs => simp [segNames] at hlen
  | cons sg rest ih =>
    cases sg with
    | lit t => exact ih vals hlen
    | param n =>
      rcases vals with _ | ⟨v, vals'⟩
      · simp [segNames] at hlen
      · show v.toList :: valsUsed rest vals' = _
        rw [ih vals' (by simpa [segNames] using hlen)]
        rfl

/-- C8 counterexample: for the template `/a{x}b{y}` and the values `x := "1"`
and `y := "b2"` — each nonempty and slash-free — the substituted path is
`/a1bb2`, yet matching it rebinds `x` to `"1b"` and `y` to `"2"`: the greedy
one-segment wildcards do not respect intra-segment placeholder boundaries, so
the round trip of the claim fails as stated. -/
theorem c8_counterexample :
    expandAtoms (scanTemplate "/a{x}b{y}".toList).1 ["1".toList, "b2".toList] =
      "/a1bb2".toList ∧
    ("1" ≠ "" ∧ "b2" ≠ "" ∧ '/' ∉ "1".toList ∧ '/' ∉ "b2".toList) ∧
    (scanTemplate "/a{x}b{y}".toList).2 = ["x", "y"] ∧
    Validator.matchPath "/a{x}b{y}" "/a1bb2" = some [("x", "1b"), ("y", "2")] ∧
    some [("x", "1b"), ("y", "2")] ≠ some [("x", "1"), ("y", "b2")] := by
  refine ⟨rfl, by decide, rfl, rfl, by decide⟩

/-- C8 amended: for templates in which every placeholder spans one whole path
segment (literal segments being regex-plain text, placeholder names nonempty
and brace-free), matching the path obtained by substituting nonempty
slash-free values for the placeholders succeeds and binds each placeholder
name to exactly its value, in template order. -/
theorem c8_roundtrip_segments (segs : List Seg) (vals : List String)
    (hwf : ∀ sg ∈ segs, segWF sg)
    (hlen : vals.length = (segNames segs).length)
    (hvals : ∀ v ∈ vals, v ≠ "" ∧ '/' ∉ v.toList) :
    Validator.matchPath (String.mk (templChars segs))
        (String.mk (pathChars segs vals)) =
      some ((segNames segs).zip vals) := by
  unfold Validator.matchPath
  dsimp only
  show (match matchAtoms (scanTemplate (templChars segs)).1
      (pathChars segs vals) with
    | none => none
    | some caps =>
      some ((scanTemplate (templChars segs)).2.zip (caps.map String.mk))) = _
  rw [scanTemplate_templ segs hwf]
  dsimp only
  rw [matchAtoms_templ segs vals hlen hvals]
  dsimp only
  rw [valsUsed_eq segs vals hlen]
  congr 1
  congr 1
  rw [List.map_map]
  have : String.mk ∘ String.toList = id := by
    funext s
    exact strMk_toList s
  rw [this, List.map_id]

/-- C8 witness: the amended round trip at `/users/{id}` with the value
`"123"`. -/
theorem c8_witness :
    Validator.matchPath (String.mk (templChars c8segs))
        (String.mk (pathChars c8segs ["123"])) =
      some ((segNames c8segs).zip ["123"]) :=
  c8_roundtrip_segments c8segs ["123"]
    (by
      intro sg hsg
      simp only [c8segs, List.mem_cons, List.not_mem_nil, or_false] at hsg
      rcases hsg with rfl | rfl
      · show ∀ c ∈ ("users" : String).toList, plainChar c = true
        decide
      · show "id" ≠ "" ∧ '}' ∉ "id".toList
        decide)
    rfl (by decide)

end ValidDog
